import Mathlib

/-!
Verification of the dream-heatmap core against its specification.

This file gives a shallow embedding of the Python sources of the
dream-heatmap repository and proves (or refutes) the specification
claims about them.  Identifiers (row/column keys) are modelled as
natural numbers; Python lists become Lean lists, Python sets and
frozensets become Finsets, Python floats become rationals (every
quantity the claims mention is exactly representable), and fallible
operations (Python functions that may raise ValueError) return
Except String values.

Embedded modules:
* src/dream_heatmap/core/id_mapper.py      (SplitGroup, IDMapper)
* src/dream_heatmap/layout/cell_layout.py  (CellLayout)
* src/dream_heatmap/transform/cluster.py   (ClusterEngine validation,
  metric selection, NaN handling, leaf ordering)
* src/dream_heatmap/layout/dendrogram_layout.py (DendrogramLayout)
* src/dream_heatmap/layout/composer.py     (keyword compatibility facts)
-/

namespace DreamHeatmap

/-- One contiguous group of IDs within a split.
Embeds SplitGroup from src/dream_heatmap/core/id_mapper.py. -/
structure SplitGroup where
  name : String
  ids : List Nat
deriving DecidableEq, Repr

/-- Maps between original IDs and their visual positions.
Embeds IDMapper from src/dream_heatmap/core/id_mapper.py:
visual_order is the on-screen order of ids, gap_positions marks the
indices where visual gaps appear, groups are the split groups. -/
structure IDMapper where
  visual_order : List Nat
  gap_positions : Finset Nat
  groups : List SplitGroup
deriving DecidableEq

/-- Number of IDs in the visual order (IDMapper.size property). -/
def IDMapper.size (m : IDMapper) : Nat := m.visual_order.length

/-- Concatenation of the groups' id sequences, in group order.
This is the value the spec compares with visual_order. -/
def groupsConcat (m : IDMapper) : List Nat :=
  (m.groups.map SplitGroup.ids).flatten

/-- IDMapper.from_ids: create a mapper from an ordered id sequence.
Python checks emptiness and then uniqueness via
len(set(arr.tolist())) != len(arr). -/
def IDMapper.from_ids (ids : List Nat) : Except String IDMapper :=
  if ids.length = 0 then
    .error "Cannot create IDMapper from empty ID list."
  else if ids.toFinset.card ≠ ids.length then
    .error "IDs must be unique."
  else
    .ok { visual_order := ids, gap_positions := ∅,
          groups := [{ name := "__all__", ids := ids }] }

/-- IDMapper.apply_reorder: Python compares set(visual_order) with
set(new_order) and raises when they differ; gap_positions and groups
are carried over unchanged. -/
def IDMapper.apply_reorder (m : IDMapper) (new_order : List Nat) :
    Except String IDMapper :=
  if m.visual_order.toFinset ≠ new_order.toFinset then
    .error "new_order must contain exactly the same IDs."
  else
    .ok { visual_order := new_order, gap_positions := m.gap_positions,
          groups := m.groups }

/-- The loop body of IDMapper.apply_splits: iterates over the
assignments in order, carrying the groups built so far, the
accumulated new order, and the gap set.  For each group the ids are
the filter of the current visual order by membership in the group's
id list; a gap at the current accumulated length is inserted when the
accumulated order is nonempty. -/
def splitsLoop (vis : List Nat) :
    List (String × List Nat) → List SplitGroup → List Nat → Finset Nat →
    List SplitGroup × List Nat × Finset Nat
  | [], gs, acc, gaps => (gs, acc, gaps)
  | p :: rest, gs, acc, gaps =>
    let ordered := vis.filter (fun x => decide (x ∈ p.2))
    let gaps2 := if acc = [] then gaps else insert acc.length gaps
    splitsLoop vis rest (gs ++ [{ name := p.1, ids := ordered }])
      (acc ++ ordered) gaps2

/-- IDMapper.apply_splits: validates that the assignments cover the
current ids exactly once (length versus set-size check, then set
equality with the current id set), then runs the loop.  The
assignments dict is modelled as an association list in iteration
order. -/
def IDMapper.apply_splits (m : IDMapper)
    (assignments : List (String × List Nat)) : Except String IDMapper :=
  let all_assigned := (assignments.map Prod.snd).flatten
  if all_assigned.length ≠ all_assigned.toFinset.card then
    .error "Some IDs appear in multiple split groups."
  else if all_assigned.toFinset ≠ m.visual_order.toFinset then
    .error "Split assignments do not match IDs."
  else
    let res := splitsLoop m.visual_order assignments [] [] ∅
    .ok { visual_order := res.2.1, gap_positions := res.2.2,
          groups := res.1 }

/-- The loop of IDMapper.apply_reorder_within_groups: each group whose
name appears in group_orders is replaced by the supplied order after a
set-equality validation; other groups pass through unchanged. -/
def rwgLoop (group_orders : List (String × List Nat)) :
    List SplitGroup → Except String (List SplitGroup)
  | [] => .ok []
  | g :: gs =>
    match group_orders.find? (fun p => p.1 == g.name) with
    | some p =>
      if p.2.toFinset ≠ g.ids.toFinset then
        .error "Reorder for group does not match the group IDs."
      else
        (rwgLoop group_orders gs).map
          (fun rest => { name := g.name, ids := p.2 } :: rest)
    | none => (rwgLoop group_orders gs).map (fun rest => g :: rest)

/-- IDMapper.apply_reorder_within_groups: the new visual order is the
concatenation of the (possibly replaced) groups; gap_positions are
carried over. -/
def IDMapper.apply_reorder_within_groups (m : IDMapper)
    (group_orders : List (String × List Nat)) : Except String IDMapper :=
  (rwgLoop group_orders m.groups).map (fun gs =>
    { visual_order := (gs.map SplitGroup.ids).flatten,
      gap_positions := m.gap_positions, groups := gs })

/-- IDMapper.apply_zoom: clamps the range, fails when it is empty,
slices visual_order, remaps interior gap positions by subtracting the
clamped start, and keeps the original groups. -/
def IDMapper.apply_zoom (m : IDMapper) (start stop : Int) :
    Except String IDMapper :=
  let s : Int := max 0 start
  let e : Int := min (m.size : Int) stop
  if s ≥ e then .error "Invalid zoom range."
  else
    .ok { visual_order := (m.visual_order.drop s.toNat).take (e - s).toNat,
          gap_positions :=
            (m.gap_positions.filter
              (fun (g : Nat) => s < (g : Int) ∧ (g : Int) < e)).image
              (fun g => g - s.toNat),
          groups := m.groups }

/-- IDMapper.apply_zoom_by_ids: filters visual_order to the given ids,
fails when nothing matches, drops all gaps, keeps the original
groups. -/
def IDMapper.apply_zoom_by_ids (m : IDMapper) (ids : List Nat) :
    Except String IDMapper :=
  let filtered := m.visual_order.filter (fun x => decide (x ∈ ids))
  if filtered.length = 0 then
    .error "No matching IDs found in visual order."
  else
    .ok { visual_order := filtered, gap_positions := ∅,
          groups := m.groups }

/-- One transform call on an IDMapper, for stating properties of call
sequences. -/
inductive Call where
  | reorder (new_order : List Nat)
  | splits (assignments : List (String × List Nat))
  | reorderWithin (group_orders : List (String × List Nat))
  | zoom (start stop : Int)
  | zoomByIds (ids : List Nat)

/-- Dispatch one call to the corresponding IDMapper method. -/
def applyCall (m : IDMapper) : Call → Except String IDMapper
  | .reorder l => m.apply_reorder l
  | .splits a => m.apply_splits a
  | .reorderWithin o => m.apply_reorder_within_groups o
  | .zoom s e => m.apply_zoom s e
  | .zoomByIds l => m.apply_zoom_by_ids l

/-- Apply a sequence of calls left to right, stopping at the first
error (Python raises; no partial mutation is possible since the
mapper is immutable). -/
def applySeq : IDMapper → List Call → Except String IDMapper
  | m, [] => .ok m
  | m, c :: cs =>
    match applyCall m c with
    | .error e => .error e
    | .ok m2 => applySeq m2 cs

/-- Boolean duplicate-freeness test for id lists. -/
def nodupb (l : List Nat) : Bool := l.dedup = l

/-- Calls covered by the permutation-invariant claim: reorder, splits
and reorder-within-groups, with duplicate-free order arguments. -/
def permCall : Call → Bool
  | .reorder l => nodupb l
  | .splits _ => true
  | .reorderWithin os => os.all (fun p => nodupb p.2)
  | .zoom _ _ => false
  | .zoomByIds _ => false

/-- Calls covered by the amended gap-interiority claim: any transform,
with duplicate-free order arguments and no empty split group. -/
def gapSafeCall : Call → Bool
  | .reorder l => nodupb l
  | .splits asg => asg.all (fun p => ¬ p.2.isEmpty)
  | .reorderWithin os => os.all (fun p => nodupb p.2)
  | .zoom _ _ => true
  | .zoomByIds _ => true

/-- Gap candidate positions of a splits call: the accumulated length
in front of each emitted group, starting from a given offset. -/
def offsets : Nat → List Nat → List Nat
  | _, [] => []
  | off, l :: ls => off :: offsets (off + l) ls

/-- Computes pixel positions for heatmap cells.
Embeds CellLayout from src/dream_heatmap/layout/cell_layout.py;
pixel quantities are rationals. -/
structure CellLayout where
  n_cells : Nat
  cell_size : ℚ
  gap_positions : Finset Nat
  gap_size : ℚ
  offset : ℚ

/-- The loop of CellLayout._compute_positions: for cell index i the
running position is advanced by gap_size when i is a gap position,
recorded, then advanced by cell_size. -/
def positionsLoop (cl : CellLayout) : Nat → Nat → ℚ → List ℚ
  | 0, _, _ => []
  | Nat.succ k, i, current =>
    let current2 := if i ∈ cl.gap_positions then current + cl.gap_size
      else current
    current2 :: positionsLoop cl k (i + 1) (current2 + cl.cell_size)

/-- CellLayout._compute_positions: pixel start position of each cell. -/
def CellLayout.positions (cl : CellLayout) : List ℚ :=
  positionsLoop cl cl.n_cells 0 cl.offset

/-- numpy searchsorted with side right on a sorted sequence: the
number of entries that are at most the probe value. -/
def searchsortedRight (xs : List ℚ) (v : ℚ) : Nat :=
  xs.countP (fun x => decide (x ≤ v))

/-- CellLayout.pixel_to_index: binary search for the cell whose start
is at most the pixel, then a check that the pixel lies inside that
cell and not in a trailing gap; none means no match. -/
def CellLayout.pixel_to_index (cl : CellLayout) (pixel : ℚ) : Option Nat :=
  if cl.n_cells = 0 then none
  else
    let idx : Int := (searchsortedRight cl.positions pixel : Int) - 1
    if idx < 0 ∨ idx ≥ (cl.n_cells : Int) then none
    else if pixel < cl.positions.getD idx.toNat 0 + cl.cell_size then
      some idx.toNat
    else none

/-- Pixel center of cell i: start position plus half the cell size. -/
def CellLayout.cellCenter (cl : CellLayout) (i : Nat) : ℚ :=
  cl.positions.getD i 0 + cl.cell_size / 2

/-- ClusterEngine.VALID_METHODS allow-list
(src/dream_heatmap/transform/cluster.py). -/
def VALID_METHODS : List String :=
  ["single", "complete", "average", "weighted", "centroid", "median",
   "ward"]

/-- ClusterEngine.VALID_METRICS allow-list. -/
def VALID_METRICS : List String :=
  ["euclidean", "correlation", "cosine", "cityblock", "chebyshev",
   "braycurtis", "canberra"]

/-- The validation and distance-metric selection of
ClusterEngine.cluster: unknown method, then unknown metric, fail; for
metric correlation with method ward the code silently falls back to
euclidean distances before calling linkage; otherwise the requested
metric is used for pdist. -/
def clusterDistanceMetric (method metric : String) : Except String String :=
  if method ∉ VALID_METHODS then
    .error "Unknown linkage method."
  else if metric ∉ VALID_METRICS then
    .error "Unknown distance metric."
  else if metric = "correlation" ∧ method = "ward" then
    .ok "euclidean"
  else
    .ok metric

/-- A matrix entry: none models NaN, some q a finite value (the
claims only involve values that are exact in float64). -/
abbrev MatrixEntry := Option ℚ

/-- Mean of the non-NaN entries of a row (numpy nanmean). -/
def nanmean (row : List MatrixEntry) : ℚ :=
  let vs := row.filterMap id
  vs.sum / (vs.length : ℚ)

/-- The per-row body of ClusterEngine._handle_nan: a fully NaN row is
set to all zeros; a row with some NaN entries has them replaced by
the row's nanmean; a NaN-free row is untouched. -/
def handleNanRow (row : List MatrixEntry) : List MatrixEntry :=
  if row.all (fun x => x.isNone) then
    row.map (fun _ => some 0)
  else if row.any (fun x => x.isNone) then
    row.map (fun x => some (x.getD (nanmean row)))
  else row

/-- ClusterEngine._handle_nan: returns the data unchanged when it has
no NaN at all, otherwise cleans every row. -/
def handle_nan (data : List (List MatrixEntry)) : List (List MatrixEntry) :=
  if data.all (fun row => row.all (fun x => ¬ x.isNone)) then data
  else data.map handleNanRow

/-- The leaf-order construction of ClusterEngine.cluster:
leaf_order = ids[leaf_indices], where leaf_indices comes from scipy
leaves_list and is a permutation of the row indices.  The scipy call
is external; the indices are a parameter here. -/
def clusterLeafOrder (ids : List Nat) (leaf_indices : List Nat) : List Nat :=
  leaf_indices.map (fun j => ids.getD j 0)

/-- A single merge node of the cluster tree, in dendrogram space
(DendrogramNode in src/dream_heatmap/transform/cluster.py): child
centroid positions on the leaf axis, merge height, child heights,
and the member ids of the subtree. -/
structure DendrogramNode where
  left : ℚ
  right : ℚ
  height : ℚ
  left_height : ℚ
  right_height : ℚ
  member_ids : List Nat
deriving DecidableEq

/-- A U-shaped dendrogram link in pixel coordinates (DendrogramLink in
src/dream_heatmap/layout/dendrogram_layout.py). -/
structure DendrogramLink where
  leaf_left : ℚ
  leaf_right : ℚ
  height_merge : ℚ
  height_left_child : ℚ
  height_right_child : ℚ
  member_ids : List Nat
deriving DecidableEq

/-- Complete dendrogram rendering specification (DendrogramSpec). -/
structure DendrogramSpec where
  links : List DendrogramLink
  side : String
  offset : ℚ
  extent : ℚ
deriving DecidableEq

/-- Python round on a rational: round half to even (banker rounding),
as used by int(round(leaf_pos)) in DendrogramLayout._leaf_to_pixel. -/
def pyRound (q : ℚ) : Int :=
  let f : Int := ⌊q⌋
  let r : ℚ := q - f
  if r < 1/2 then f
  else if 1/2 < r then f + 1
  else if f % 2 = 0 then f else f + 1

/-- DendrogramLayout._leaf_to_pixel: rounds the float leaf position to
an integer index, clamps it to the cell count, offsets it by the
group offset, and returns the pixel center of that cell (falling back
to the last cell when the offset index runs past the positions). -/
def leaf_to_pixel (leaf_pos : ℚ) (cl : CellLayout) (group_offset : Nat) :
    ℚ :=
  let idx : Int := max 0 (min (pyRound leaf_pos) ((cl.n_cells : Int) - 1))
  let actual : Nat := group_offset + idx.toNat
  if actual < cl.positions.length then
    cl.positions.getD actual 0 + cl.cell_size / 2
  else
    cl.positions.getLastD 0 + cl.cell_size / 2

/-- The cell index that _leaf_to_pixel selects for a leaf centroid:
the centroid rounded half-to-even, clamped into [0, n_cells - 1]. -/
def roundedCellIndex (cl : CellLayout) (leaf_pos : ℚ) : Nat :=
  (max 0 (min (pyRound leaf_pos) ((cl.n_cells : Int) - 1))).toNat

/-- Maximum of the merge heights of a node list (Python max over a
nonempty sequence; 1 for an empty list, unreachable in compute). -/
def maxHeight (nodes : List DendrogramNode) : ℚ :=
  match nodes.map DendrogramNode.height with
  | [] => 1
  | h :: t => t.foldl max h

/-- DendrogramLayout.compute: none when there are no merge nodes;
otherwise scales each height by dendro_height over the maximum height
(with the zero maximum replaced by 1) and maps leaf centroids to cell
center pixels. -/
def dendroCompute (nodes : List DendrogramNode) (cl : CellLayout)
    (side : String) (dendro_height : ℚ) (group_offset : Nat) :
    Option DendrogramSpec :=
  if nodes = [] then none
  else
    let mh0 := maxHeight nodes
    let mh := if mh0 = 0 then 1 else mh0
    let links := nodes.map (fun nd =>
      { leaf_left := leaf_to_pixel nd.left cl group_offset
        leaf_right := leaf_to_pixel nd.right cl group_offset
        height_merge := nd.height / mh * dendro_height
        height_left_child := nd.left_height / mh * dendro_height
        height_right_child := nd.right_height / mh * dendro_height
        member_ids := nd.member_ids : DendrogramLink })
    some { links := links, side := side, offset := 0,
           extent := dendro_height }

/-- The keyword parameters accepted by CellLayout.__init__
(src/dream_heatmap/layout/cell_layout.py lines 15 to 27). -/
def cellLayoutInitKeywords : List String :=
  ["n_cells", "cell_size", "gap_positions", "gap_size", "offset"]

/-- The keyword arguments LayoutComposer.compute passes when it
constructs the row and column CellLayouts
(src/dream_heatmap/layout/composer.py lines 227 to 242). -/
def composerCellLayoutCallKeywords : List String :=
  ["n_cells", "cell_size", "gap_positions", "gap_size", "offset",
   "gap_sizes"]

/-- Structural well-formedness of a mapper: duplicate-free visual
order, duplicate-free group contents, the visual order no longer than
the group contents, and strictly interior gap positions. -/
def WFcore (m : IDMapper) : Prop :=
  m.visual_order.Nodup ∧ (groupsConcat m).Nodup ∧
  m.visual_order.length ≤ (groupsConcat m).length ∧
  ∀ g ∈ m.gap_positions, 0 < g ∧ g < m.visual_order.length

/-- Invariant for the permutation claim: duplicate-free visual order
and group contents, both carrying exactly the original id set. -/
def PermInv (S : Finset Nat) (m : IDMapper) : Prop :=
  m.visual_order.Nodup ∧ (groupsConcat m).Nodup ∧
  m.visual_order.toFinset = S ∧ (groupsConcat m).toFinset = S

instance : DecidableEq (Except String IDMapper) := fun a b =>
  match a, b with
  | .ok x, .ok y =>
    if h : x = y then isTrue (by rw [h]) else isFalse (by simp [h])
  | .error x, .error y =>
    if h : x = y then isTrue (by rw [h]) else isFalse (by simp [h])
  | .ok _, .error _ => isFalse (by simp)
  | .error _, .ok _ => isFalse (by simp)

lemma nodupb_iff (l : List Nat) : nodupb l = true ↔ l.Nodup := by
  unfold nodupb
  rw [decide_eq_true_eq]
  exact List.dedup_eq_self

lemma nodup_of_card_toFinset (l : List Nat)
    (h : l.toFinset.card = l.length) : l.Nodup := by
  rw [List.card_toFinset] at h
  exact List.dedup_eq_self.mp ((l.dedup_sublist).eq_of_length h)

lemma from_ids_ok (ids : List Nat) (m : IDMapper)
    (h : IDMapper.from_ids ids = .ok m) :
    m = { visual_order := ids, gap_positions := ∅,
          groups := [{ name := "__all__", ids := ids }] } ∧
    ids.Nodup ∧ ids ≠ [] := by
  unfold IDMapper.from_ids at h
  split_ifs at h with h1 h2
  refine ⟨by injection h with h; exact h.symm, ?_, ?_⟩
  · exact nodup_of_card_toFinset ids (by omega)
  · intro hnil
    exact h1 (by simp [hnil])

lemma apply_reorder_ok (m : IDMapper) (l : List Nat) (r : IDMapper)
    (h : m.apply_reorder l = .ok r) :
    r = { visual_order := l, gap_positions := m.gap_positions,
          groups := m.groups } ∧
    l.toFinset = m.visual_order.toFinset := by
  unfold IDMapper.apply_reorder at h
  split_ifs at h with h1
  exact ⟨by injection h with h; exact h.symm, (not_ne_iff.mp h1).symm⟩

lemma splitsLoop_groups (vis : List Nat) (asg : List (String × List Nat))
    (gs : List SplitGroup) (acc : List Nat) (gaps : Finset Nat) :
    (splitsLoop vis asg gs acc gaps).1 =
      gs ++ asg.map (fun p =>
        { name := p.1,
          ids := vis.filter (fun x => decide (x ∈ p.2)) }) := by
  induction asg generalizing gs acc gaps with
  | nil => simp [splitsLoop]
  | cons p rest ih => simp [splitsLoop, ih]

lemma splitsLoop_order (vis : List Nat) (asg : List (String × List Nat))
    (gs : List SplitGroup) (acc : List Nat) (gaps : Finset Nat) :
    (splitsLoop vis asg gs acc gaps).2.1 =
      acc ++ (asg.map (fun p =>
        vis.filter (fun x => decide (x ∈ p.2)))).flatten := by
  induction asg generalizing gs acc gaps with
  | nil => simp [splitsLoop]
  | cons p rest ih => simp [splitsLoop, ih]

lemma splitsLoop_gaps (vis : List Nat) (asg : List (String × List Nat))
    (gs : List SplitGroup) (acc : List Nat) (gaps : Finset Nat) :
    (splitsLoop vis asg gs acc gaps).2.2 =
      gaps ∪ ((offsets acc.length (asg.map (fun p =>
        (vis.filter (fun x => decide (x ∈ p.2))).length))).filter
          (fun x => decide (0 < x))).toFinset := by
  induction asg generalizing gs acc gaps with
  | nil => simp [splitsLoop, offsets]
  | cons p rest ih =>
    simp only [splitsLoop]
    rw [ih]
    by_cases h : acc = []
    · rw [if_pos h]
      simp only [h, List.nil_append, List.length_nil, List.map_cons,
        offsets, List.filter_cons, decide_eq_true_eq]
      rw [if_neg (by omega), Nat.zero_add]
    · have hlen : 0 < acc.length := List.length_pos.mpr h
      rw [if_neg h]
      simp only [List.map_cons, offsets, List.filter_cons,
        decide_eq_true_eq, List.length_append, if_pos hlen,
        List.toFinset_cons]
      ext x
      simp only [Finset.mem_union, Finset.mem_insert]
      tauto

lemma mem_offsets_lt_sum (lens : List Nat) (off g : Nat)
    (hpos : ∀ l ∈ lens, 0 < l) (hg : g ∈ offsets off lens) :
    g < off + lens.sum := by
  induction lens generalizing off with
  | nil => simp [offsets] at hg
  | cons l ls ih =>
    simp only [offsets, List.mem_cons] at hg
    rcases hg with hg | hg
    · have := hpos l (by simp)
      simp [hg, List.sum_cons]
      omega
    · have := ih (off + l) (fun x hx => hpos x (by simp [hx])) hg
      simp [List.sum_cons]
      omega

lemma apply_splits_ok (m : IDMapper) (asg : List (String × List Nat))
    (r : IDMapper) (h : m.apply_splits asg = .ok r) :
    r.groups = asg.map (fun p =>
      { name := p.1, ids := m.visual_order.filter
          (fun x => decide (x ∈ p.2)) }) ∧
    r.visual_order = (asg.map (fun p =>
      m.visual_order.filter (fun x => decide (x ∈ p.2)))).flatten ∧
    r.gap_positions = ((offsets 0 (asg.map (fun p =>
      (m.visual_order.filter (fun x => decide (x ∈ p.2))).length))).filter
        (fun x => decide (0 < x))).toFinset ∧
    ((asg.map Prod.snd).flatten).Nodup ∧
    ((asg.map Prod.snd).flatten).toFinset = m.visual_order.toFinset := by
  simp only [IDMapper.apply_splits] at h
  split_ifs at h with h1 h2
  injection h with h
  subst h
  refine ⟨?_, ?_, ?_, ?_, not_ne_iff.mp h2⟩
  · simpa using splitsLoop_groups m.visual_order asg [] [] ∅
  · simpa using splitsLoop_order m.visual_order asg [] [] ∅
  · simpa using splitsLoop_gaps m.visual_order asg [] [] ∅
  · exact nodup_of_card_toFinset _ (by omega)

lemma nodup_flatten_filters (vis : List Nat) (ls : List (List Nat))
    (hv : vis.Nodup) (hl : ls.flatten.Nodup) :
    ((ls.map (fun l =>
      vis.filter (fun x => decide (x ∈ l)))).flatten).Nodup := by
  rw [List.nodup_flatten] at hl ⊢
  constructor
  · intro l' hl'
    simp only [List.mem_map] at hl'
    obtain ⟨l, _, rfl⟩ := hl'
    exact hv.filter _
  · rw [List.pairwise_map]
    refine hl.2.imp ?_
    intro a b hab x hxa hxb
    simp only [List.mem_filter, decide_eq_true_eq] at hxa hxb
    exact hab hxa.2 hxb.2

lemma toFinset_flatten_filters (vis : List Nat) (ls : List (List Nat))
    (hset : ls.flatten.toFinset = vis.toFinset) :
    ((ls.map (fun l =>
      vis.filter (fun x => decide (x ∈ l)))).flatten).toFinset =
      vis.toFinset := by
  ext x
  simp only [List.mem_toFinset, List.mem_flatten, List.mem_map]
  constructor
  · rintro ⟨l', ⟨l, _, rfl⟩, hx⟩
    simp only [List.mem_filter] at hx
    exact hx.1
  · intro hx
    have hx2 : x ∈ ls.flatten := by
      have : x ∈ ls.flatten.toFinset := by
        rw [hset]
        exact List.mem_toFinset.mpr hx
      exact List.mem_toFinset.mp this
    obtain ⟨l, hls, hxl⟩ := List.mem_flatten.mp hx2
    exact ⟨vis.filter (fun y => decide (y ∈ l)), ⟨l, hls, rfl⟩,
      List.mem_filter.mpr ⟨hx, by simpa using hxl⟩⟩

lemma rwgLoop_ok (orders : List (String × List Nat))
    (gs gs2 : List SplitGroup) (h : rwgLoop orders gs = .ok gs2) :
    List.Forall₂ (fun g g' =>
      g'.name = g.name ∧ g'.ids.toFinset = g.ids.toFinset ∧
      (g'.ids = g.ids ∨ ∃ p ∈ orders, g'.ids = p.2)) gs gs2 := by
  induction gs generalizing gs2 with
  | nil =>
    simp only [rwgLoop] at h
    injection h with h
    subst h
    exact List.Forall₂.nil
  | cons g rest ih =>
    simp only [rwgLoop] at h
    cases hfind : orders.find? (fun p => p.1 == g.name) with
    | some p =>
      rw [hfind] at h
      dsimp only at h
      split_ifs at h with hset
      cases hrec : rwgLoop orders rest with
      | error e => rw [hrec] at h; exact absurd h (by simp [Except.map])
      | ok tl =>
        rw [hrec] at h
        simp only [Except.map] at h
        injection h with h
        subst h
        exact List.Forall₂.cons
          ⟨rfl, not_ne_iff.mp hset,
            Or.inr ⟨p, List.mem_of_find?_eq_some hfind, rfl⟩⟩
          (ih tl hrec)
    | none =>
      rw [hfind] at h
      dsimp only at h
      cases hrec : rwgLoop orders rest with
      | error e => rw [hrec] at h; exact absurd h (by simp [Except.map])
      | ok tl =>
        rw [hrec] at h
        simp only [Except.map] at h
        injection h with h
        subst h
        exact List.Forall₂.cons ⟨rfl, rfl, Or.inl rfl⟩ (ih tl hrec)

lemma rwg_flatten_facts (orders : List (String × List Nat))
    (gs gs2 : List SplitGroup)
    (hf : List.Forall₂ (fun g g' =>
      g'.name = g.name ∧ g'.ids.toFinset = g.ids.toFinset ∧
      (g'.ids = g.ids ∨ ∃ p ∈ orders, g'.ids = p.2)) gs gs2)
    (hJ : ((gs.map SplitGroup.ids).flatten).Nodup)
    (hOrd : ∀ p ∈ orders, p.2.Nodup) :
    ((gs2.map SplitGroup.ids).flatten).Nodup ∧
    ((gs2.map SplitGroup.ids).flatten).length =
      ((gs.map SplitGroup.ids).flatten).length ∧
    ((gs2.map SplitGroup.ids).flatten).toFinset =
      ((gs.map SplitGroup.ids).flatten).toFinset := by
  induction hf with
  | nil => simp
  | @cons g g' rest rest2 hgg hrest ih =>
    obtain ⟨_, hset, hids⟩ := hgg
    simp only [List.map_cons, List.flatten_cons] at hJ ⊢
    rw [List.nodup_append] at hJ
    obtain ⟨hg, hrestJ, hdisj⟩ := hJ
    obtain ⟨ihN, ihL, ihS⟩ := ih hrestJ
    have hg' : g'.ids.Nodup := by
      rcases hids with hids | ⟨p, hp, hids⟩
      · rw [hids]; exact hg
      · rw [hids]; exact hOrd p hp
    have hlen : g'.ids.length = g.ids.length := by
      have := congrArg Finset.card hset
      rwa [List.toFinset_card_of_nodup hg',
        List.toFinset_card_of_nodup hg] at this
    refine ⟨List.nodup_append.mpr ⟨hg', ihN, ?_⟩, by simp [hlen, ihL],
      by simp [List.toFinset_append, hset, ihS]⟩
    intro x hx hx2
    have hxg : x ∈ g.ids := by
      have : x ∈ g.ids.toFinset := hset ▸ List.mem_toFinset.mpr hx
      exact List.mem_toFinset.mp this
    have hxr : x ∈ (rest.map SplitGroup.ids).flatten := by
      have : x ∈ ((rest.map SplitGroup.ids).flatten).toFinset :=
        ihS ▸ List.mem_toFinset.mpr hx2
      exact List.mem_toFinset.mp this
    exact hdisj hxg hxr

lemma apply_rwg_ok (m : IDMapper) (orders : List (String × List Nat))
    (r : IDMapper) (h : m.apply_reorder_within_groups orders = .ok r) :
    ∃ gs2, rwgLoop orders m.groups = .ok gs2 ∧
      r = { visual_order := (gs2.map SplitGroup.ids).flatten,
            gap_positions := m.gap_positions, groups := gs2 } := by
  unfold IDMapper.apply_reorder_within_groups at h
  cases hrec : rwgLoop orders m.groups with
  | error e => rw [hrec] at h; exact absurd h (by simp [Except.map])
  | ok gs2 =>
    rw [hrec] at h
    simp only [Except.map] at h
    injection h with h
    exact ⟨gs2, rfl, h.symm⟩

lemma apply_zoom_ok (m : IDMapper) (a b : Int) (r : IDMapper)
    (h : m.apply_zoom a b = .ok r) :
    max 0 a < min (m.size : Int) b ∧
    r = { visual_order :=
            (m.visual_order.drop (max 0 a).toNat).take
              (min (m.size : Int) b - max 0 a).toNat,
          gap_positions :=
            (m.gap_positions.filter (fun (g : Nat) =>
              max 0 a < (g : Int) ∧ (g : Int) < min (m.size : Int) b)).image
              (fun g => g - (max 0 a).toNat),
          groups := m.groups } := by
  simp only [IDMapper.apply_zoom] at h
  split_ifs at h with h1
  injection h with h
  exact ⟨by omega, h.symm⟩

lemma apply_zoom_err (m : IDMapper) (a b : Int)
    (h : max 0 a ≥ min (m.size : Int) b) :
    ∃ msg, m.apply_zoom a b = .error msg := by
  simp only [IDMapper.apply_zoom]
  rw [if_pos h]
  exact ⟨_, rfl⟩

lemma apply_zoom_by_ids_ok (m : IDMapper) (ids : List Nat) (r : IDMapper)
    (h : m.apply_zoom_by_ids ids = .ok r) :
    r = { visual_order :=
            m.visual_order.filter (fun x => decide (x ∈ ids)),
          gap_positions := ∅, groups := m.groups } := by
  simp only [IDMapper.apply_zoom_by_ids] at h
  split_ifs at h with h1
  injection h with h
  exact h.symm

lemma filter_ne_nil_of_covered (m : IDMapper)
    (asg : List (String × List Nat)) (p : String × List Nat)
    (hset : ((asg.map Prod.snd).flatten).toFinset =
      m.visual_order.toFinset)
    (hp : p ∈ asg) (hne : p.2 ≠ []) :
    m.visual_order.filter (fun x => decide (x ∈ p.2)) ≠ [] := by
  obtain ⟨x, hx⟩ := List.exists_mem_of_ne_nil p.2 hne
  have hxf : x ∈ (asg.map Prod.snd).flatten :=
    List.mem_flatten.mpr ⟨p.2, List.mem_map.mpr ⟨p, hp, rfl⟩, hx⟩
  have hxv : x ∈ m.visual_order := by
    have := hset ▸ List.mem_toFinset.mpr hxf
    exact List.mem_toFinset.mp this
  intro hnil
  have : x ∈ m.visual_order.filter (fun y => decide (y ∈ p.2)) :=
    List.mem_filter.mpr ⟨hxv, by simpa using hx⟩
  simp [hnil] at this

lemma WF_reorder (m r : IDMapper) (l : List Nat) (hwf : WFcore m)
    (hnd : l.Nodup) (h : m.apply_reorder l = .ok r) :
    WFcore r ∧ r.visual_order.toFinset = m.visual_order.toFinset ∧
    r.groups = m.groups := by
  obtain ⟨rfl, hset⟩ := apply_reorder_ok m l r h
  obtain ⟨hv, hj, hlen, hgaps⟩ := hwf
  have hlen2 : l.length = m.visual_order.length := by
    have := congrArg Finset.card hset
    rwa [List.toFinset_card_of_nodup hnd,
      List.toFinset_card_of_nodup hv] at this
  exact ⟨⟨hnd, hj, by simpa [groupsConcat, hlen2] using hlen,
    by simpa [hlen2] using hgaps⟩, hset, rfl⟩

lemma splits_visual_facts (m r : IDMapper)
    (asg : List (String × List Nat)) (hv : m.visual_order.Nodup)
    (h : m.apply_splits asg = .ok r) :
    r.visual_order.Nodup ∧
    r.visual_order.toFinset = m.visual_order.toFinset ∧
    groupsConcat r = r.visual_order := by
  obtain ⟨hg, ho, hgap, hnd, hset⟩ := apply_splits_ok m asg r h
  have hmap : (asg.map Prod.snd).map (fun l =>
      m.visual_order.filter (fun x => decide (x ∈ l))) =
      asg.map (fun p =>
        m.visual_order.filter (fun x => decide (x ∈ p.2))) := by
    rw [List.map_map]
    rfl
  refine ⟨?_, ?_, ?_⟩
  · rw [ho, ← hmap]
    exact nodup_flatten_filters m.visual_order (asg.map Prod.snd) hv hnd
  · rw [ho, ← hmap]
    exact toFinset_flatten_filters m.visual_order (asg.map Prod.snd) hset
  · rw [groupsConcat, hg, ho, List.map_map]
    rfl

lemma WF_splits (m r : IDMapper) (asg : List (String × List Nat))
    (hwf : WFcore m) (h : m.apply_splits asg = .ok r)
    (hne : ∀ p ∈ asg, p.2 ≠ []) :
    WFcore r ∧ r.visual_order.toFinset = m.visual_order.toFinset ∧
    groupsConcat r = r.visual_order := by
  obtain ⟨hv, _, _, _⟩ := hwf
  obtain ⟨hvis, hvset, hconcat⟩ := splits_visual_facts m r asg hv h
  obtain ⟨hg, ho, hgap, hnd, hset⟩ := apply_splits_ok m asg r h
  refine ⟨⟨hvis, hconcat ▸ hvis, by rw [hconcat], ?_⟩, hvset, hconcat⟩
  intro g hgmem
  rw [hgap] at hgmem
  rw [List.mem_toFinset, List.mem_filter] at hgmem
  obtain ⟨hoff, hpos⟩ := hgmem
  rw [decide_eq_true_eq] at hpos
  refine ⟨hpos, ?_⟩
  have hlt := mem_offsets_lt_sum _ 0 g ?_ hoff
  · rw [ho, List.length_flatten]
    simpa [List.map_map, Function.comp] using hlt
  · intro l hl
    simp only [List.mem_map] at hl
    obtain ⟨p, hp, rfl⟩ := hl
    exact List.length_pos.mpr
      (filter_ne_nil_of_covered m asg p hset hp (hne p hp))

lemma rwg_visual_facts (m r : IDMapper)
    (orders : List (String × List Nat))
    (hj : (groupsConcat m).Nodup) (hOrd : ∀ p ∈ orders, p.2.Nodup)
    (h : m.apply_reorder_within_groups orders = .ok r) :
    r.visual_order.Nodup ∧
    r.visual_order.toFinset = (groupsConcat m).toFinset ∧
    groupsConcat r = r.visual_order ∧
    r.visual_order.length = (groupsConcat m).length := by
  obtain ⟨gs2, hrec, rfl⟩ := apply_rwg_ok m orders r h
  obtain ⟨hN, hL, hS⟩ := rwg_flatten_facts orders m.groups gs2
    (rwgLoop_ok orders m.groups gs2 hrec) hj hOrd
  exact ⟨hN, hS, rfl, hL⟩

lemma WF_rwg (m r : IDMapper) (orders : List (String × List Nat))
    (hwf : WFcore m) (hOrd : ∀ p ∈ orders, p.2.Nodup)
    (h : m.apply_reorder_within_groups orders = .ok r) :
    WFcore r ∧ r.visual_order.toFinset = (groupsConcat m).toFinset ∧
    groupsConcat r = r.visual_order := by
  obtain ⟨hv, hj, hlen, hgaps⟩ := hwf
  obtain ⟨hN, hS, hc, hL⟩ := rwg_visual_facts m r orders hj hOrd h
  refine ⟨⟨hN, hc ▸ hN, by rw [hc], ?_⟩, hS, hc⟩
  intro g hg
  obtain ⟨gs2, hrec, hr⟩ := apply_rwg_ok m orders r h
  have hgp : r.gap_positions = m.gap_positions := by rw [hr]
  rw [hgp] at hg
  obtain ⟨h1, h2⟩ := hgaps g hg
  exact ⟨h1, lt_of_lt_of_le h2 (le_trans hlen (le_of_eq hL.symm))⟩

lemma WF_zoom (m r : IDMapper) (a b : Int) (hwf : WFcore m)
    (h : m.apply_zoom a b = .ok r) : WFcore r := by
  obtain ⟨hlt, rfl⟩ := apply_zoom_ok m a b r h
  obtain ⟨hv, hj, hlen, hgaps⟩ := hwf
  have hsize : (m.size : Int) = (m.visual_order.length : Int) := rfl
  have hlen2 : ((m.visual_order.drop (max 0 a).toNat).take
      (min (m.size : Int) b - max 0 a).toNat).length =
      (min (m.size : Int) b - max 0 a).toNat := by
    simp only [List.length_take, List.length_drop]
    omega
  refine ⟨((m.visual_order.drop_sublist _).nodup hv).take, hj, ?_, ?_⟩
  · refine le_trans ?_ hlen
    simp only [groupsConcat, List.length_take, List.length_drop]
    omega
  · intro g hg
    simp only [Finset.mem_image, Finset.mem_filter] at hg
    obtain ⟨g0, ⟨hg0, hg1, hg2⟩, rfl⟩ := hg
    rw [hlen2]
    omega

lemma WF_zoomByIds (m r : IDMapper) (ids : List Nat) (hwf : WFcore m)
    (h : m.apply_zoom_by_ids ids = .ok r) : WFcore r := by
  obtain rfl := apply_zoom_by_ids_ok m ids r h
  obtain ⟨hv, hj, hlen, _⟩ := hwf
  refine ⟨hv.filter _, hj, ?_, by simp⟩
  exact le_trans (List.length_filter_le _ _) hlen

lemma applySeq_gapSafe (cs : List Call) :
    ∀ m r, WFcore m → (∀ c ∈ cs, gapSafeCall c = true) →
    applySeq m cs = .ok r → WFcore r := by
  induction cs with
  | nil =>
    intro m r hwf _ h
    simp only [applySeq] at h
    injection h with h
    exact h ▸ hwf
  | cons c rest ih =>
    intro m r hwf hc h
    simp only [applySeq] at h
    cases hstep : applyCall m c with
    | error e => rw [hstep] at h; exact absurd h (by simp)
    | ok m2 =>
      rw [hstep] at h
      have hc0 := hc c (by simp)
      refine ih m2 r ?_ (fun d hd => hc d (by simp [hd])) h
      cases c with
      | reorder l =>
        have hnd : l.Nodup := (nodupb_iff l).mp (by simpa [gapSafeCall] using hc0)
        exact (WF_reorder m m2 l hwf hnd hstep).1
      | splits asg =>
        refine (WF_splits m m2 asg hwf hstep ?_).1
        have hall : ∀ (a : String) (b : List Nat), (a, b) ∈ asg →
            ¬ b = [] := by
          simpa [gapSafeCall, List.all_eq_true] using hc0
        exact fun p hp => hall p.1 p.2 hp
      | reorderWithin os =>
        refine (WF_rwg m m2 os hwf ?_ hstep).1
        have hall : ∀ (a : String) (b : List Nat), (a, b) ∈ os →
            nodupb b = true := by
          simpa [gapSafeCall, List.all_eq_true] using hc0
        exact fun p hp => (nodupb_iff p.2).mp (hall p.1 p.2 hp)
      | zoom a b => exact WF_zoom m m2 a b hwf hstep
      | zoomByIds l => exact WF_zoomByIds m m2 l hwf hstep

lemma applySeq_perm (S : Finset Nat) (cs : List Call) :
    ∀ m r, PermInv S m → (∀ c ∈ cs, permCall c = true) →
    applySeq m cs = .ok r → PermInv S r := by
  induction cs with
  | nil =>
    intro m r hwf _ h
    simp only [applySeq] at h
    injection h with h
    exact h ▸ hwf
  | cons c rest ih =>
    intro m r hwf hc h
    simp only [applySeq] at h
    cases hstep : applyCall m c with
    | error e => rw [hstep] at h; exact absurd h (by simp)
    | ok m2 =>
      rw [hstep] at h
      have hc0 := hc c (by simp)
      obtain ⟨hv, hj, hvS, hjS⟩ := hwf
      refine ih m2 r ?_ (fun d hd => hc d (by simp [hd])) h
      cases c with
      | reorder l =>
        have hnd : l.Nodup :=
          (nodupb_iff l).mp (by simpa [permCall] using hc0)
        obtain ⟨hr, hset⟩ := apply_reorder_ok m l m2 hstep
        have hg2 : m2.groups = m.groups := by rw [hr]
        have hv2 : m2.visual_order = l := by rw [hr]
        exact ⟨hv2 ▸ hnd, by rw [groupsConcat, hg2]; exact hj,
          by rw [hv2, hset]; exact hvS,
          by rw [groupsConcat, hg2]; exact hjS⟩
      | splits asg =>
        obtain ⟨hvis, hvset, hcj⟩ := splits_visual_facts m m2 asg hv hstep
        exact ⟨hvis, hcj ▸ hvis, hvset.trans hvS,
          by rw [hcj]; exact hvset.trans hvS⟩
      | reorderWithin os =>
        have hOrd : ∀ p ∈ os, p.2.Nodup := by
          have hall : ∀ (a : String) (b : List Nat), (a, b) ∈ os →
              nodupb b = true := by
            simpa [permCall, List.all_eq_true] using hc0
          exact fun p hp => (nodupb_iff p.2).mp (hall p.1 p.2 hp)
        obtain ⟨hN, hS2, hcj, _⟩ := rwg_visual_facts m m2 os hj hOrd hstep
        exact ⟨hN, hcj ▸ hN, hS2.trans hjS, by rw [hcj]; exact hS2.trans hjS⟩
      | zoom a b => simp [permCall] at hc0
      | zoomByIds l => simp [permCall] at hc0

lemma from_ids_inv (ids : List Nat) (m : IDMapper)
    (h : IDMapper.from_ids ids = .ok m) :
    PermInv ids.toFinset m ∧ WFcore m := by
  obtain ⟨rfl, hnd, _⟩ := from_ids_ok ids m h
  refine ⟨⟨hnd, ?_, rfl, ?_⟩, hnd, ?_, ?_, ?_⟩ <;>
    simp [groupsConcat, hnd]

/-- Claim C1, counterexample: starting from the mapper built by
from_ids for ids [0, 1], the single call apply_reorder [0, 0, 1]
succeeds (the Python validation compares only the id sets, which are
equal) yet the resulting visual_order [0, 0, 1] contains a duplicate
identifier, so the claimed no-duplicates invariant fails. -/
theorem C1_counterexample :
    IDMapper.from_ids [0, 1] =
      .ok { visual_order := [0, 1], gap_positions := ∅,
            groups := [{ name := "__all__", ids := [0, 1] }] } ∧
    applySeq
      { visual_order := [0, 1], gap_positions := ∅,
        groups := [{ name := "__all__", ids := [0, 1] }] }
      [Call.reorder [0, 0, 1]] =
      .ok { visual_order := [0, 0, 1], gap_positions := ∅,
            groups := [{ name := "__all__", ids := [0, 1] }] } ∧
    ¬ ([0, 0, 1] : List Nat).Nodup := by
  exact ⟨by decide, by decide, by decide⟩

/-- Claim C1 (amended): for every IDMapper built by from_ids and
every sequence of successful apply_reorder, apply_splits and
apply_reorder_within_groups calls in which each order list passed to
apply_reorder or apply_reorder_within_groups is itself duplicate
free, the resulting visual_order's identifier set equals the original
mapper's identifier set and visual_order has no duplicates. -/
theorem C1_permutation_invariant (ids : List Nat) (cs : List Call)
    (m0 r : IDMapper) (h0 : IDMapper.from_ids ids = .ok m0)
    (hc : ∀ c ∈ cs, permCall c = true)
    (h : applySeq m0 cs = .ok r) :
    r.visual_order.toFinset = m0.visual_order.toFinset ∧
    r.visual_order.Nodup := by
  obtain ⟨hperm, _⟩ := from_ids_inv ids m0 h0
  have hS : m0.visual_order.toFinset = ids.toFinset := hperm.2.2.1
  obtain ⟨hnd, _, hset, _⟩ := applySeq_perm ids.toFinset cs m0 r hperm hc h
  exact ⟨hset.trans hS.symm, hnd⟩

/-- Claim C1, witness: a concrete split followed by a within-group
reorder, starting from from_ids [0, 1, 2, 3]; the theorem yields set
preservation and duplicate freeness for the concrete outcome. -/
theorem C1_witness :
    applySeq
      { visual_order := [0, 1, 2, 3], gap_positions := ∅,
        groups := [{ name := "__all__", ids := [0, 1, 2, 3] }] }
      [Call.splits [("g1", [2, 0]), ("g2", [3, 1])],
       Call.reorderWithin [("g1", [2, 0])]] =
      .ok { visual_order := [2, 0, 1, 3], gap_positions := ({2} : Finset Nat),
            groups := [{ name := "g1", ids := [2, 0] },
                       { name := "g2", ids := [1, 3] }] } ∧
    ({ visual_order := [2, 0, 1, 3], gap_positions := ({2} : Finset Nat),
       groups := [{ name := "g1", ids := [2, 0] },
                  { name := "g2", ids := [1, 3] }] } :
      IDMapper).visual_order.toFinset =
      ({0, 1, 2, 3} : Finset Nat) ∧
    ([2, 0, 1, 3] : List Nat).Nodup := by
  have h : applySeq
      { visual_order := [0, 1, 2, 3], gap_positions := ∅,
        groups := [{ name := "__all__", ids := [0, 1, 2, 3] }] }
      [Call.splits [("g1", [2, 0]), ("g2", [3, 1])],
       Call.reorderWithin [("g1", [2, 0])]] =
      .ok { visual_order := [2, 0, 1, 3], gap_positions := ({2} : Finset Nat),
            groups := [{ name := "g1", ids := [2, 0] },
                       { name := "g2", ids := [1, 3] }] } := by decide
  have h2 := C1_permutation_invariant [0, 1, 2, 3]
    [Call.splits [("g1", [2, 0]), ("g2", [3, 1])],
     Call.reorderWithin [("g1", [2, 0])]]
    { visual_order := [0, 1, 2, 3], gap_positions := ∅,
      groups := [{ name := "__all__", ids := [0, 1, 2, 3] }] }
    { visual_order := [2, 0, 1, 3], gap_positions := ({2} : Finset Nat),
      groups := [{ name := "g1", ids := [2, 0] },
                 { name := "g2", ids := [1, 3] }] }
    (by decide) (by decide) h
  exact ⟨h, h2.1.trans (by decide), h2.2⟩

/-- Claim C2, counterexample: from_ids [0, 1] followed by a
successful apply_reorder [1, 0] leaves groups untouched, so the
groups' concatenation is still [0, 1] while visual_order is [1, 0];
the claimed invariant fails for apply_reorder. -/
theorem C2_counterexample :
    IDMapper.from_ids [0, 1] =
      .ok { visual_order := [0, 1], gap_positions := ∅,
            groups := [{ name := "__all__", ids := [0, 1] }] } ∧
    IDMapper.apply_reorder
      { visual_order := [0, 1], gap_positions := ∅,
        groups := [{ name := "__all__", ids := [0, 1] }] } [1, 0] =
      .ok { visual_order := [1, 0], gap_positions := ∅,
            groups := [{ name := "__all__", ids := [0, 1] }] } ∧
    groupsConcat
      { visual_order := [1, 0], gap_positions := ∅,
        groups := [{ name := "__all__", ids := [0, 1] }] } ≠
      ({ visual_order := [1, 0], gap_positions := ∅,
         groups := [{ name := "__all__", ids := [0, 1] }] } :
        IDMapper).visual_order := by
  exact ⟨by decide, by decide, by decide⟩

/-- Claim C2 (amended): after every successful apply_splits and
apply_reorder_within_groups the concatenation of the groups' id
sequences, in group order, equals visual_order exactly; the other
transforms (apply_reorder, apply_zoom, apply_zoom_by_ids) keep the
groups of the input mapper unchanged, so after them the concatenation
equals the previous groups' content rather than the new
visual_order. -/
theorem C2_groups_concat (m : IDMapper) :
    (∀ asg r, m.apply_splits asg = .ok r →
      groupsConcat r = r.visual_order) ∧
    (∀ os r, m.apply_reorder_within_groups os = .ok r →
      groupsConcat r = r.visual_order) ∧
    (∀ l r, m.apply_reorder l = .ok r → r.groups = m.groups) ∧
    (∀ a b r, m.apply_zoom a b = .ok r → r.groups = m.groups) ∧
    (∀ ids r, m.apply_zoom_by_ids ids = .ok r →
      r.groups = m.groups) := by
  refine ⟨?_, ?_, ?_, ?_, ?_⟩
  · intro asg r h
    obtain ⟨hg, ho, _, _, _⟩ := apply_splits_ok m asg r h
    rw [groupsConcat, hg, ho, List.map_map]
    rfl
  · intro os r h
    obtain ⟨gs2, _, rfl⟩ := apply_rwg_ok m os r h
    rfl
  · intro l r h
    obtain ⟨rfl, _⟩ := apply_reorder_ok m l r h
    rfl
  · intro a b r h
    obtain ⟨_, rfl⟩ := apply_zoom_ok m a b r h
    rfl
  · intro ids r h
    obtain rfl := apply_zoom_by_ids_ok m ids r h
    rfl

/-- Claim C2, witness: the concrete split of [0, 1, 2, 3] into g1, g2;
the theorem yields that the groups' concatenation equals the new
visual_order. -/
theorem C2_witness :
    IDMapper.apply_splits
      { visual_order := [0, 1, 2, 3], gap_positions := ∅,
        groups := [{ name := "__all__", ids := [0, 1, 2, 3] }] }
      [("g1", [0, 1]), ("g2", [2, 3])] =
      .ok { visual_order := [0, 1, 2, 3], gap_positions := ({2} : Finset Nat),
            groups := [{ name := "g1", ids := [0, 1] },
                       { name := "g2", ids := [2, 3] }] } ∧
    groupsConcat
      { visual_order := [0, 1, 2, 3],
        gap_positions := ({2} : Finset Nat),
        groups := [{ name := "g1", ids := [0, 1] },
                   { name := "g2", ids := [2, 3] }] } =
      ({ visual_order := [0, 1, 2, 3], gap_positions := ({2} : Finset Nat),
         groups := [{ name := "g1", ids := [0, 1] },
                    { name := "g2", ids := [2, 3] }] } :
        IDMapper).visual_order := by
  have h : IDMapper.apply_splits
      { visual_order := [0, 1, 2, 3], gap_positions := ∅,
        groups := [{ name := "__all__", ids := [0, 1, 2, 3] }] }
      [("g1", [0, 1]), ("g2", [2, 3])] =
      .ok { visual_order := [0, 1, 2, 3], gap_positions := ({2} : Finset Nat),
            groups := [{ name := "g1", ids := [0, 1] },
                       { name := "g2", ids := [2, 3] }] } := by decide
  exact ⟨h, (C2_groups_concat
    { visual_order := [0, 1, 2, 3], gap_positions := ∅,
      groups := [{ name := "__all__", ids := [0, 1, 2, 3] }] }).1
    [("g1", [0, 1]), ("g2", [2, 3])] _ h⟩

/-- Claim C3, counterexample: from_ids [0, 1] followed by
apply_splits with the assignments g1 holding all ids and g2 empty
succeeds, and the result has size 2 but a gap at position 2, which is
not strictly less than the size; the gap-interiority claim fails for
assignments containing an empty group. -/
theorem C3_counterexample :
    IDMapper.from_ids [0, 1] =
      .ok { visual_order := [0, 1], gap_positions := ∅,
            groups := [{ name := "__all__", ids := [0, 1] }] } ∧
    IDMapper.apply_splits
      { visual_order := [0, 1], gap_positions := ∅,
        groups := [{ name := "__all__", ids := [0, 1] }] }
      [("g1", [0, 1]), ("g2", [])] =
      .ok { visual_order := [0, 1], gap_positions := ({2} : Finset Nat),
            groups := [{ name := "g1", ids := [0, 1] },
                       { name := "g2", ids := [] }] } ∧
    2 ∈ ({ visual_order := [0, 1], gap_positions := ({2} : Finset Nat),
           groups := [{ name := "g1", ids := [0, 1] },
                      { name := "g2", ids := [] }] } :
      IDMapper).gap_positions ∧
    ¬ (2 < ({ visual_order := [0, 1], gap_positions := ({2} : Finset Nat),
              groups := [{ name := "g1", ids := [0, 1] },
                         { name := "g2", ids := [] }] } :
      IDMapper).size) := by
  exact ⟨by decide, by decide, by decide, by decide⟩

/-- Claim C3 (amended): for every IDMapper produced by from_ids or by
a sequence of successful transforms in which every apply_splits
assignment consists of nonempty id lists (a trailing empty group can
place a gap at position N) and every order list passed to
apply_reorder or apply_reorder_within_groups is duplicate free, every
member of gap_positions is strictly greater than 0 and strictly less
than the mapper's size. -/
theorem C3_gap_interiority (ids : List Nat) (cs : List Call)
    (m0 r : IDMapper) (h0 : IDMapper.from_ids ids = .ok m0)
    (hc : ∀ c ∈ cs, gapSafeCall c = true)
    (h : applySeq m0 cs = .ok r) :
    ∀ g ∈ r.gap_positions, 0 < g ∧ g < r.size := by
  obtain ⟨_, hwf⟩ := from_ids_inv ids m0 h0
  exact (applySeq_gapSafe cs m0 r hwf hc h).2.2.2

/-- Claim C3, witness: a split of [0, 1, 2, 3] into two groups
followed by a zoom to the range [1, 4); the theorem yields that the
remapped gap position 1 is strictly interior. -/
theorem C3_witness :
    applySeq
      { visual_order := [0, 1, 2, 3], gap_positions := ∅,
        groups := [{ name := "__all__", ids := [0, 1, 2, 3] }] }
      [Call.splits [("g1", [0, 1]), ("g2", [2, 3])], Call.zoom 1 4] =
      .ok { visual_order := [1, 2, 3], gap_positions := ({1} : Finset Nat),
            groups := [{ name := "g1", ids := [0, 1] },
                       { name := "g2", ids := [2, 3] }] } ∧
    (0 < 1 ∧ 1 <
      ({ visual_order := [1, 2, 3], gap_positions := ({1} : Finset Nat),
         groups := [{ name := "g1", ids := [0, 1] },
                    { name := "g2", ids := [2, 3] }] } :
        IDMapper).size) := by
  have h : applySeq
      { visual_order := [0, 1, 2, 3], gap_positions := ∅,
        groups := [{ name := "__all__", ids := [0, 1, 2, 3] }] }
      [Call.splits [("g1", [0, 1]), ("g2", [2, 3])], Call.zoom 1 4] =
      .ok { visual_order := [1, 2, 3], gap_positions := ({1} : Finset Nat),
            groups := [{ name := "g1", ids := [0, 1] },
                       { name := "g2", ids := [2, 3] }] } := by decide
  refine ⟨h, C3_gap_interiority [0, 1, 2, 3]
    [Call.splits [("g1", [0, 1]), ("g2", [2, 3])], Call.zoom 1 4]
    { visual_order := [0, 1, 2, 3], gap_positions := ∅,
      groups := [{ name := "__all__", ids := [0, 1, 2, 3] }] }
    { visual_order := [1, 2, 3], gap_positions := ({1} : Finset Nat),
      groups := [{ name := "g1", ids := [0, 1] },
                 { name := "g2", ids := [2, 3] }] }
    (by decide) (by decide) h 1 (by decide)⟩

/-- Claim C4: for every mapper and integers start, stop, apply_zoom
fails exactly when the range clamped into [0, N] is empty; on success
it restricts visual_order to the clamped index range, remaps
gap_positions to the set of g minus clamped start for interior g, and
keeps the groups. -/
theorem C4_apply_zoom (m : IDMapper) (start stop : Int) :
    ((min (max 0 start) (m.size : Int) ≥ min (max 0 stop) (m.size : Int))
      ↔ ∃ msg, m.apply_zoom start stop = .error msg) ∧
    ∀ r, m.apply_zoom start stop = .ok r →
      r.visual_order.length = (min (m.size : Int) stop - max 0 start).toNat ∧
      (∀ i : Nat, i < r.visual_order.length →
        r.visual_order.getD i 0 =
          m.visual_order.getD ((max 0 start).toNat + i) 0) ∧
      (∀ g : Nat, g ∈ r.gap_positions ↔
        ∃ g0 ∈ m.gap_positions, max 0 start < (g0 : Int) ∧
          (g0 : Int) < min (m.size : Int) stop ∧
          g = g0 - (max 0 start).toNat) ∧
      r.groups = m.groups := by
  constructor
  · constructor
    · intro hcl
      exact apply_zoom_err m start stop (by omega)
    · intro ⟨msg, hmsg⟩
      by_contra hcl
      have hlt : max 0 start < min (m.size : Int) stop := by omega
      simp only [IDMapper.apply_zoom] at hmsg
      rw [if_neg (by omega)] at hmsg
      exact absurd hmsg (by simp)
  · intro r h
    obtain ⟨hlt, rfl⟩ := apply_zoom_ok m start stop r h
    have hsz : (m.size : Int) = (m.visual_order.length : Int) := rfl
    have hlen : ((m.visual_order.drop (max 0 start).toNat).take
        (min (m.size : Int) stop - max 0 start).toNat).length =
        (min (m.size : Int) stop - max 0 start).toNat := by
      simp only [List.length_take, List.length_drop]
      omega
    refine ⟨hlen, ?_, ?_, rfl⟩
    · intro i hi
      rw [hlen] at hi
      rw [List.getD_eq_getElem?_getD, List.getD_eq_getElem?_getD,
        List.getElem?_take, if_pos hi, List.getElem?_drop]
    · intro g
      simp only [Finset.mem_image, Finset.mem_filter]
      constructor
      · rintro ⟨g0, ⟨hg0, hg1, hg2⟩, rfl⟩
        exact ⟨g0, hg0, hg1, hg2, rfl⟩
      · rintro ⟨g0, hg0, hg1, hg2, rfl⟩
        exact ⟨g0, ⟨hg0, hg1, hg2⟩, rfl⟩

/-- Claim C4, witness: the mapper for ids [0, 1, 2, 3] split at 2,
zoomed with applyZoom(1, 4): visual_order is [1, 2, 3] with a gap at
1; the theorem supplies the length, content and gap facts at this
concrete input. -/
theorem C4_witness :
    IDMapper.apply_zoom
      { visual_order := [0, 1, 2, 3], gap_positions := ({2} : Finset Nat),
        groups := [{ name := "g1", ids := [0, 1] },
                   { name := "g2", ids := [2, 3] }] } 1 4 =
      .ok { visual_order := [1, 2, 3], gap_positions := ({1} : Finset Nat),
            groups := [{ name := "g1", ids := [0, 1] },
                       { name := "g2", ids := [2, 3] }] } ∧
    ([1, 2, 3] : List Nat).length = 3 ∧
    (1 ∈ ({1} : Finset Nat) ↔
      ∃ g0 ∈ ({2} : Finset Nat), (1 : Int) < (g0 : Int) ∧
        (g0 : Int) < (4 : Int) ∧ 1 = g0 - 1) := by
  have h : IDMapper.apply_zoom
      { visual_order := [0, 1, 2, 3], gap_positions := ({2} : Finset Nat),
        groups := [{ name := "g1", ids := [0, 1] },
                   { name := "g2", ids := [2, 3] }] } 1 4 =
      .ok { visual_order := [1, 2, 3], gap_positions := ({1} : Finset Nat),
            groups := [{ name := "g1", ids := [0, 1] },
                       { name := "g2", ids := [2, 3] }] } := by decide
  have hc := (C4_apply_zoom
    { visual_order := [0, 1, 2, 3], gap_positions := ({2} : Finset Nat),
      groups := [{ name := "g1", ids := [0, 1] },
                 { name := "g2", ids := [2, 3] }] } 1 4).2 _ h
  refine ⟨h, ?_, ?_⟩
  · exact hc.1.trans (by decide)
  · exact hc.2.2.1 1

/-- Claim C5: for every mapper and every assignments map accepted by
the validation, apply_splits gives each emitted group the filter of
the current visual_order by membership in that group's id list (so
ids keep their relative order from the visual order, not the order
given in the id list), emits the groups in the iteration order of the
assignments, concatenates them into the new visual_order, and places
the gap markers exactly at the positive accumulated boundary
positions in front of each group after the first. -/
theorem C5_apply_splits (m : IDMapper) (asg : List (String × List Nat))
    (r : IDMapper) (h : m.apply_splits asg = .ok r) :
    r.groups = asg.map (fun p =>
      { name := p.1,
        ids := m.visual_order.filter (fun x => decide (x ∈ p.2)) }) ∧
    r.visual_order = (asg.map (fun p =>
      m.visual_order.filter (fun x => decide (x ∈ p.2)))).flatten ∧
    r.gap_positions = ((offsets 0 (asg.map (fun p =>
      (m.visual_order.filter (fun x => decide (x ∈ p.2))).length))).filter
        (fun x => decide (0 < x))).toFinset := by
  obtain ⟨h1, h2, h3, _, _⟩ := apply_splits_ok m asg r h
  exact ⟨h1, h2, h3⟩

/-- Claim C5, witness: the scenario split of [0, 1, 2, 3] into
g1 = two first ids and g2 = two last ids, with the group id lists
deliberately given out of order: the result keeps visual order
[0, 1, 2, 3] and places the single gap at 2. -/
theorem C5_witness :
    IDMapper.apply_splits
      { visual_order := [0, 1, 2, 3], gap_positions := ∅,
        groups := [{ name := "__all__", ids := [0, 1, 2, 3] }] }
      [("g1", [1, 0]), ("g2", [3, 2])] =
      .ok { visual_order := [0, 1, 2, 3], gap_positions := ({2} : Finset Nat),
            groups := [{ name := "g1", ids := [0, 1] },
                       { name := "g2", ids := [2, 3] }] } ∧
    ({ visual_order := [0, 1, 2, 3], gap_positions := ({2} : Finset Nat),
       groups := [{ name := "g1", ids := [0, 1] },
                  { name := "g2", ids := [2, 3] }] } :
      IDMapper).visual_order = [0, 1, 2, 3] ∧
    ({ visual_order := [0, 1, 2, 3], gap_positions := ({2} : Finset Nat),
       groups := [{ name := "g1", ids := [0, 1] },
                  { name := "g2", ids := [2, 3] }] } :
      IDMapper).gap_positions = ({2} : Finset Nat) := by
  have h : IDMapper.apply_splits
      { visual_order := [0, 1, 2, 3], gap_positions := ∅,
        groups := [{ name := "__all__", ids := [0, 1, 2, 3] }] }
      [("g1", [1, 0]), ("g2", [3, 2])] =
      .ok { visual_order := [0, 1, 2, 3], gap_positions := ({2} : Finset Nat),
            groups := [{ name := "g1", ids := [0, 1] },
                       { name := "g2", ids := [2, 3] }] } := by decide
  have hc := C5_apply_splits
    { visual_order := [0, 1, 2, 3], gap_positions := ∅,
      groups := [{ name := "__all__", ids := [0, 1, 2, 3] }] }
    [("g1", [1, 0]), ("g2", [3, 2])] _ h
  exact ⟨h, hc.2.1.trans (by decide), hc.2.2.trans (by decide)⟩

/-- Claim C6: the CellLayout with 4 cells of size 10, a gap of size 6
at position 2 and offset 0 has positions [0, 10, 26, 36]; every pixel
strictly inside the gap (the open span between 20 and 26, e.g. 22)
maps to no cell, and pixel 26 maps to cell index 2. -/
theorem C6_cell_layout_gap :
    (CellLayout.mk 4 10 ({2} : Finset Nat) 6 0).positions =
      [0, 10, 26, 36] ∧
    (∀ p : ℚ, 20 < p → p < 26 →
      (CellLayout.mk 4 10 ({2} : Finset Nat) 6 0).pixel_to_index p =
        none) ∧
    (CellLayout.mk 4 10 ({2} : Finset Nat) 6 0).pixel_to_index 26 =
      some 2 := by
  have hpos : (CellLayout.mk 4 10 ({2} : Finset Nat) 6 0).positions =
      [0, 10, 26, 36] := by
    simp [CellLayout.positions, positionsLoop]
    norm_num
  refine ⟨hpos, ?_, ?_⟩
  · intro p h1 h2
    have e0 : ((0:ℚ) ≤ p) := by linarith
    have e10 : ((10:ℚ) ≤ p) := by linarith
    have e26 : ¬ ((26:ℚ) ≤ p) := by linarith
    have e36 : ¬ ((36:ℚ) ≤ p) := by linarith
    have h20 : ¬ (p < 10 + 10) := by
      intro hl
      rw [show (10:ℚ) + 10 = 20 by norm_num] at hl
      linarith
    have hc : searchsortedRight [0, 10, 26, 36] p = 2 := by
      simp [searchsortedRight, List.countP_cons, List.countP_nil,
        e0, e10, e26, e36]
    simp [CellLayout.pixel_to_index, hpos, hc, h20]
  · have hc : searchsortedRight [0, 10, 26, 36] (26:ℚ) = 3 := by
      simp [searchsortedRight, List.countP_cons, List.countP_nil]
      norm_num
    simp [CellLayout.pixel_to_index, hpos, hc]

/-- Claim C6, witness: pixel 22 lies strictly inside the gap span and
the theorem yields that its lookup returns none. -/
theorem C6_witness :
    (CellLayout.mk 4 10 ({2} : Finset Nat) 6 0).pixel_to_index 22 =
      none ∧
    (20 : ℚ) < 22 ∧ (22 : ℚ) < 26 :=
  ⟨C6_cell_layout_gap.2.1 22 (by norm_num) (by norm_num),
   by norm_num, by norm_num⟩

/-- Claim C7, counterexample: method ward and metric correlation both
pass the allow-list validation, yet ClusterEngine.cluster feeds
euclidean distances to linkage for this pair (the code comments call
it a silent fallback), not the requested correlation distances. -/
theorem C7_counterexample :
    "ward" ∈ VALID_METHODS ∧ "correlation" ∈ VALID_METRICS ∧
    clusterDistanceMetric "ward" "correlation" = .ok "euclidean" ∧
    ("euclidean" : String) ≠ "correlation" := by
  exact ⟨by decide, by decide, rfl, by decide⟩

/-- Claim C7 (amended): cluster rejects any method outside
VALID_METHODS with the unknown-method error and any metric outside
VALID_METRICS with the unknown-metric error; for every allowed pair
except method ward with metric correlation the distances fed to
linkage are those of the requested metric, while ward with
correlation silently falls back to euclidean distances. -/
theorem C7_cluster_metric (method metric : String) :
    (method ∉ VALID_METHODS →
      clusterDistanceMetric method metric =
        .error "Unknown linkage method.") ∧
    (method ∈ VALID_METHODS → metric ∉ VALID_METRICS →
      clusterDistanceMetric method metric =
        .error "Unknown distance metric.") ∧
    (method ∈ VALID_METHODS → metric ∈ VALID_METRICS →
      ¬ (metric = "correlation" ∧ method = "ward") →
      clusterDistanceMetric method metric = .ok metric) ∧
    clusterDistanceMetric "ward" "correlation" = .ok "euclidean" := by
  refine ⟨?_, ?_, ?_, rfl⟩
  · intro hm
    simp [clusterDistanceMetric, hm]
  · intro hm hk
    simp [clusterDistanceMetric, hm, hk]
  · intro hm hk hnc
    simp [clusterDistanceMetric, hm, hk, hnc]

/-- Claim C7, witness: the allowed pair average with cosine uses the
cosine distances, by the theorem. -/
theorem C7_witness :
    clusterDistanceMetric "average" "cosine" = .ok "cosine" :=
  (C7_cluster_metric "average" "cosine").2.2.1
    (by decide) (by decide) (by decide)

/-- Claim C9 (code bug): LayoutComposer.compute constructs the row and
column CellLayouts passing the keyword argument gap_sizes, but
CellLayout.__init__ accepts no such parameter, so in Python every
call of compute raises TypeError instead of returning a LayoutSpec;
the repository's own layout tests call compute and expect results. -/
theorem C9_composer_keyword_mismatch :
    "gap_sizes" ∈ composerCellLayoutCallKeywords ∧
    "gap_sizes" ∉ cellLayoutInitKeywords := by
  decide

/-- Claim C10: in ClusterEngine._handle_nan a row of all NaN entries
is set to all zeros (not a row mean, undefined there), a row with
some but not all NaN entries has exactly its NaN entries replaced by
the mean of the non-NaN values, and the leaf order built from scipy's
leaf indices references only the original identifiers. -/
theorem C10_handle_nan (data : List (List MatrixEntry)) (i : Nat)
    (hi : i < data.length) :
    ((data.getD i []).all (fun x => x.isNone) →
      (handle_nan data).getD i [] =
        (data.getD i []).map (fun _ => some 0)) ∧
    ((data.getD i []).any (fun x => x.isNone) →
      ¬ (data.getD i []).all (fun x => x.isNone) →
      (handle_nan data).getD i [] =
        (data.getD i []).map (fun x =>
          some (x.getD (nanmean (data.getD i []))))) ∧
    (∀ ids leaf_indices : List Nat,
      (∀ j ∈ leaf_indices, j < ids.length) →
      ∀ x ∈ clusterLeafOrder ids leaf_indices, x ∈ ids) := by
  have hget : data.getD i [] = data[i] := List.getD_eq_getElem data [] hi
  have hmaplen : i < (data.map handleNanRow).length := by simpa using hi
  have hmap : (data.map handleNanRow).getD i [] = handleNanRow data[i] := by
    rw [List.getD_eq_getElem _ [] hmaplen]
    exact List.getElem_map _
  refine ⟨?_, ?_, ?_⟩
  · intro hall
    rw [hget] at hall ⊢
    by_cases hno : data.all (fun row => row.all (fun x => ¬ x.isNone))
    · rw [handle_nan, if_pos hno]
      have hrow := List.all_eq_true.mp hno data[i] (List.getElem_mem hi)
      cases hcase : data[i] with
      | nil =>
        rw [hget, hcase]
        simp
      | cons a l =>
        rw [hcase] at hall hrow
        have ha := List.all_eq_true.mp hall a (by simp)
        have hb := List.all_eq_true.mp hrow a (by simp)
        simp at ha hb
        exact absurd ha hb
    · rw [handle_nan, if_neg hno, hmap, handleNanRow, if_pos hall]
  · intro hany hnall
    rw [hget] at hany hnall ⊢
    have hno : ¬ data.all (fun row => row.all (fun x => ¬ x.isNone)) := by
      intro hno
      have hrow := List.all_eq_true.mp hno data[i] (List.getElem_mem hi)
      obtain ⟨a, ha, ha2⟩ := List.any_eq_true.mp hany
      have := List.all_eq_true.mp hrow a ha
      simp at this ha2
      rw [ha2] at this
      simp at this
    rw [handle_nan, if_neg hno, hmap, handleNanRow, if_neg ?_,
      if_pos hany]
    exact hnall
  · intro ids leaf_indices hj x hx
    simp only [clusterLeafOrder, List.mem_map] at hx
    obtain ⟨j, hjm, rfl⟩ := hx
    rw [List.getD_eq_getElem ids 0 (hj j hjm)]
    exact List.getElem_mem (hj j hjm)

/-- Claim C10, witness: on the matrix with rows [1, NaN, 3] and
[NaN, NaN, NaN], the theorem gives the cleaned rows [1, 2, 3] (the
non-NaN mean is 2) and [0, 0, 0]. -/
theorem C10_witness :
    (handle_nan [[some 1, none, some 3],
                 [none, none, none]]).getD 1 [] =
      [some 0, some 0, some 0] ∧
    (handle_nan [[some 1, none, some 3],
                 [none, none, none]]).getD 0 [] =
      [some 1, some 2, some 3] := by
  have h1 := (C10_handle_nan
    [[some 1, none, some 3], [none, none, none]] 1 (by norm_num)).1
    (by decide)
  have h2 := (C10_handle_nan
    [[some 1, none, some 3], [none, none, none]] 0 (by norm_num)).2.1
    (by decide) (by decide)
  constructor
  · rw [h1]
    decide
  · rw [h2]
    have hm : nanmean ([[some (1:ℚ), none, some 3],
        [none, none, none]].getD 0 []) = 2 := by
      simp [nanmean, List.filterMap]
      norm_num
    rw [hm]
    decide

lemma le_foldl_max (l : List ℚ) (a : ℚ) : a ≤ l.foldl max a := by
  induction l generalizing a with
  | nil => simp
  | cons b t ih => exact le_trans (le_max_left a b) (ih (max a b))

lemma mem_le_foldl_max (l : List ℚ) (a x : ℚ) (hx : x ∈ l) :
    x ≤ l.foldl max a := by
  induction l generalizing a with
  | nil => simp at hx
  | cons b t ih =>
    rcases List.mem_cons.mp hx with rfl | hx
    · exact le_trans (le_max_right a x) (le_foldl_max t (max a x))
    · exact ih _ hx

lemma le_maxHeight (nodes : List DendrogramNode) (nd : DendrogramNode)
    (h : nd ∈ nodes) : nd.height ≤ maxHeight nodes := by
  cases nodes with
  | nil => simp at h
  | cons n t =>
    simp only [maxHeight, List.map_cons]
    rcases List.mem_cons.mp h with rfl | h
    · exact le_foldl_max _ _
    · exact mem_le_foldl_max _ _ _ (List.mem_map.mpr ⟨nd, h, rfl⟩)

/-- Claim C8, counterexample: a three-leaf cluster tree whose top
node has the non-integer leaf centroid one half.  On the layout with
cells of size 10 the claim predicts the pixel midway between the
centers of cells 0 and 1, which is 10; the code rounds the centroid
half-to-even to cell 0 and returns that cell's center 5. -/
theorem C8_counterexample :
    dendroCompute
      [{ left := 0, right := 1, height := 1, left_height := 0,
         right_height := 0, member_ids := [0, 1] },
       { left := 1/2, right := 2, height := 2, left_height := 1,
         right_height := 0, member_ids := [0, 1, 2] }]
      (CellLayout.mk 3 10 ∅ 6 0) "left" 80 0 =
      some
      { links :=
          [{ leaf_left := 5, leaf_right := 15, height_merge := 40,
             height_left_child := 0, height_right_child := 0,
             member_ids := [0, 1] },
           { leaf_left := 5, leaf_right := 25, height_merge := 80,
             height_left_child := 40, height_right_child := 0,
             member_ids := [0, 1, 2] }],
        side := "left", offset := 0, extent := 80 } ∧
    ((CellLayout.mk 3 10 ∅ 6 0).cellCenter 0 +
      (CellLayout.mk 3 10 ∅ 6 0).cellCenter 1) / 2 = 10 ∧
    (5 : ℚ) ≠ 10 := by
  have hpos : (CellLayout.mk 3 10 ∅ 6 0).positions = [0, 10, 20] := by
    simp [CellLayout.positions, positionsLoop]
    norm_num
  refine ⟨?_, ?_, by norm_num⟩
  · have hround : pyRound (1/2 : ℚ) = 0 := by
      have hf : ⌊(1/2 : ℚ)⌋ = 0 := by norm_num
      simp only [pyRound, hf]
      norm_num
    have hr0 : pyRound (0 : ℚ) = 0 := by
      have hf : ⌊(0 : ℚ)⌋ = 0 := by norm_num
      simp only [pyRound, hf]
      norm_num
    have hr1 : pyRound (1 : ℚ) = 1 := by
      have hf : ⌊(1 : ℚ)⌋ = 1 := by norm_num
      simp only [pyRound, hf]
      norm_num
    have hr2 : pyRound (2 : ℚ) = 2 := by
      have hf : ⌊(2 : ℚ)⌋ = 2 := by norm_num
      simp only [pyRound, hf]
      norm_num
    simp [dendroCompute, maxHeight, leaf_to_pixel, hround, hpos,
      hr0, hr1, hr2]
    norm_num [hround]
  · rw [CellLayout.cellCenter, CellLayout.cellCenter, hpos]
    norm_num

/-- Claim C8 (amended): DendrogramLayout.compute yields no dendrogram
(none) exactly when the cluster result has no merge node (fewer than
2 leaves); otherwise every link's merge height is the node's height
scaled by heightExtentPx over the maximum height in the tree (1 when
that maximum is 0), landing in [0, heightExtentPx] for non-negative
heights, and each leaf-axis centroid maps to the center of the cell
at the centroid rounded half-to-even, clamped to the cell count and
offset by groupOffset cells (not to the midpoint between the
neighbouring cell centers); member ids are carried through. -/
theorem C8_dendrogram_layout (nodes : List DendrogramNode)
    (cl : CellLayout) (side : String) (dh : ℚ) (goff : Nat)
    (h0 : ∀ nd ∈ nodes, 0 ≤ nd.height) (hd : 0 ≤ dh) :
    (dendroCompute nodes cl side dh goff = none ↔ nodes = []) ∧
    ∀ spec, dendroCompute nodes cl side dh goff = some spec →
      spec.side = side ∧ spec.offset = 0 ∧ spec.extent = dh ∧
      List.Forall₂ (fun nd lk =>
        (0 ≤ lk.height_merge ∧ lk.height_merge ≤ dh) ∧
        lk.height_merge *
          (if maxHeight nodes = 0 then 1 else maxHeight nodes) =
          nd.height * dh ∧
        (goff + roundedCellIndex cl nd.left < cl.positions.length →
          lk.leaf_left =
            cl.cellCenter (goff + roundedCellIndex cl nd.left)) ∧
        (goff + roundedCellIndex cl nd.right < cl.positions.length →
          lk.leaf_right =
            cl.cellCenter (goff + roundedCellIndex cl nd.right)) ∧
        lk.member_ids = nd.member_ids) nodes spec.links := by
  by_cases hn : nodes = []
  · subst hn
    refine ⟨by simp [dendroCompute], ?_⟩
    intro spec hspec
    simp [dendroCompute] at hspec
  · constructor
    · simp [dendroCompute, hn]
    · intro spec hspec
      simp only [dendroCompute, if_neg hn] at hspec
      injection hspec with hspec
      subst hspec
      refine ⟨rfl, rfl, rfl, ?_⟩
      rw [List.forall₂_map_right_iff]
      rw [List.forall₂_same]
      intro nd hnd
      have hle : nd.height ≤ maxHeight nodes := le_maxHeight nodes nd hnd
      have hge : 0 ≤ nd.height := h0 nd hnd
      set mh0 := maxHeight nodes with hmh0
      have hmh : 0 < (if mh0 = 0 then 1 else mh0) := by
        by_cases hz : mh0 = 0
        · simp [hz]
        · rw [if_neg hz]
          rcases lt_or_eq_of_le (le_trans hge hle) with h | h
          · exact h
          · exact absurd h.symm hz
      have hle2 : nd.height ≤ (if mh0 = 0 then 1 else mh0) := by
        by_cases hz : mh0 = 0
        · rw [if_pos hz]
          exact le_trans hle (by rw [hz]; norm_num)
        · rw [if_neg hz]
          exact hle
      refine ⟨⟨?_, ?_⟩, ?_, ?_, ?_, rfl⟩
      · exact mul_nonneg (div_nonneg hge (le_of_lt hmh)) hd
      · calc nd.height / (if mh0 = 0 then 1 else mh0) * dh
            ≤ 1 * dh := by
              apply mul_le_mul_of_nonneg_right _ hd
              exact (div_le_one hmh).mpr hle2
        _ = dh := one_mul dh
      · field_simp
      · intro hin
        simp only [roundedCellIndex] at hin
        simp only [leaf_to_pixel, CellLayout.cellCenter,
          roundedCellIndex]
        rw [if_pos hin]
      · intro hin
        simp only [roundedCellIndex] at hin
        simp only [leaf_to_pixel, CellLayout.cellCenter,
          roundedCellIndex]
        rw [if_pos hin]

/-- Claim C8, witness: a cluster result with no merge node (fewer
than 2 leaves) yields no dendrogram and not an error, by the
theorem. -/
theorem C8_witness :
    dendroCompute [] (CellLayout.mk 3 10 ∅ 6 0) "left" 80 0 = none :=
  (C8_dendrogram_layout [] (CellLayout.mk 3 10 ∅ 6 0) "left" 80 0
    (by simp) (by norm_num)).1.mpr rfl

end DreamHeatmap
